import Mathlib

/-!
Verification of the bug65 6502/65C02 simulator and debugger core.

This file gives a shallow embedding, in Lean 4, of the parts of the
TypeScript sources that the checked claims are about:

* `Memory` (memory.ts): flat 64 KiB byte array, addresses masked to
  16 bits, values to 8 bits; little-endian words.
* `Cpu6502` (cpu_6502.ts): registers, flags, addressing modes, the
  instruction helpers (ADC, JSR, RTS, push/pop, PLP, ...) and the
  `step`/`executeOpcode` pipeline for the opcodes the theorems below
  exercise.
* `Bug65Host` (bug65_host.ts): the sim65-style paravirtualization
  host — software-stack push/pop/peek, the trap dispatcher, and the
  `read`/`write`/`open`/`lseek`/`args` handlers.
* `DebugInfo.getLineForAddress` / `getAllLinesForAddress`
  (debugInfo.ts): span interval search and the best-line heuristic.
* `Bug65DebugSession.scanStack` (bug65Debug.ts): synthetic call-stack
  reconstruction from hardware-stack bytes.

JavaScript `x & 0xFF` / `x & 0xFFFF` on the non-negative numbers that
occur here is rendered as `x % 256` / `x % 65536`; `(hi << 8) | lo` on
byte values is rendered as `hi * 256 + lo`; JavaScript 32-bit `~x` is
rendered as `x ^^^ 0xFFFFFFFF` (correct for the < 2^32 operands that
occur).  Wrapping decrements such as `(sp - 1) & 0xFF` are rendered as
`(sp + 255) % 256`, which agrees with the JavaScript two's-complement
result for every non-negative `sp`.
-/

/-- Flat 64 KiB memory (memory.ts `Memory`): a total function from
addresses to stored bytes. -/
def Mem : Type := Nat → Nat

namespace Mem

/-- `read(address) { return this.data[address & 0xFFFF]; }`.  The extra
`% 256` reflects that a `Uint8Array` only ever stores byte values. -/
def read (m : Mem) (address : Nat) : Nat := m (address % 65536) % 256

/-- `write(address, value) { this.data[address & 0xFFFF] = value & 0xFF; }` -/
def write (m : Mem) (address value : Nat) : Mem :=
  fun a => if a = address % 65536 then value % 256 else m a

/-- `readWord`: little-endian, `(high << 8) | low` with
`high = read(address+1)`, `low = read(address)`. -/
def readWord (m : Mem) (address : Nat) : Nat :=
  m.read (address + 1) * 256 + m.read address

end Mem

/- Status-register bit masks (cpu_interface.ts `Flags`). -/
namespace Flags

def Carry : Nat := 0x01
def Zero : Nat := 0x02
def InterruptDisable : Nat := 0x04
def Decimal : Nat := 0x08
def Break : Nat := 0x10
def Unused : Nat := 0x20
def Overflow : Nat := 0x40
def Negative : Nat := 0x80

end Flags

/-- CPU variant (`cpu_interface.ts` `CpuType`). -/
inductive CpuType where
  | mos6502
  | wdc65C02
deriving DecidableEq, Repr

/-- CPU state of cpu_6502.ts `Cpu6502` (registers, status, cycle
counter, variant) together with the memory it owns.  Breakpoints are
empty and no trap hook is attached in the bare CPU (`onTrap` is
`undefined` until a host installs itself); the host-attached step is
modelled separately on `HostState`. -/
structure Cpu6502 where
  A : Nat
  X : Nat
  Y : Nat
  SP : Nat
  PC : Nat
  Status : Nat
  cycles : Nat
  mem : Mem
  cpuType : CpuType

namespace Cpu6502

/-- `setFlag(flag, value)`: `Status |= flag` or `Status &= ~flag`
(32-bit `~`). -/
def setFlag (c : Cpu6502) (flag : Nat) (value : Bool) : Cpu6502 :=
  if value then { c with Status := c.Status ||| flag }
  else { c with Status := c.Status &&& (flag ^^^ 0xFFFFFFFF) }

/-- `getFlag(flag) { return (this.Status & flag) !== 0; }` -/
def getFlag (c : Cpu6502) (flag : Nat) : Bool :=
  c.Status &&& flag ≠ 0

end Cpu6502

namespace Cpu6502

/-- `LDA(value)`: `A = value; Z = A==0; N = (A & 0x80) != 0`. -/
def LDA (c : Cpu6502) (value : Nat) : Cpu6502 :=
  let c := { c with A := value }
  let c := c.setFlag Flags.Zero (c.A = 0)
  c.setFlag Flags.Negative (c.A &&& 0x80 ≠ 0)

/-- `ADC(value)` (cpu_6502.ts lines 603-618).  Decimal mode falls back
to binary, exactly as in the source.  The overflow test
`(~(A ^ value) & (A ^ sum) & 0x80) !== 0` uses JavaScript 32-bit `~`,
rendered here as `^^^ 0xFFFFFFFF`. -/
def ADC (c : Cpu6502) (value : Nat) : Cpu6502 :=
  let carry : Nat := if c.getFlag Flags.Carry then 1 else 0
  let sum := c.A + value + carry
  let c := c.setFlag Flags.Carry (sum > 0xFF)
  let c := c.setFlag Flags.Overflow
    (((c.A ^^^ value) ^^^ 0xFFFFFFFF) &&& (c.A ^^^ sum) &&& 0x80 ≠ 0)
  let c := { c with A := sum % 256 }  -- A = sum & 0xFF
  let c := c.setFlag Flags.Zero (c.A = 0)
  c.setFlag Flags.Negative (c.A &&& 0x80 ≠ 0)

/-- `push(value)`: `mem[0x100 + SP] = value; SP = (SP - 1) & 0xFF`. -/
def push (c : Cpu6502) (value : Nat) : Cpu6502 :=
  { c with mem := c.mem.write (0x100 + c.SP) value,
           SP := (c.SP + 255) % 256 }

/-- `pop()`: `SP = (SP + 1) & 0xFF; return mem[0x100 + SP]`.  Returns
the pulled byte together with the new state. -/
def pop (c : Cpu6502) : Nat × Cpu6502 :=
  let sp := (c.SP + 1) % 256
  (c.mem.read (0x100 + sp), { c with SP := sp })

/-- `pushWord(value)`: push `(value >> 8) & 0xFF` then `value & 0xFF`. -/
def pushWord (c : Cpu6502) (value : Nat) : Cpu6502 :=
  (c.push (value / 256 % 256)).push (value % 256)

/-- `popWord()`: pop low then high; result `(high << 8) | low`. -/
def popWord (c : Cpu6502) : Nat × Cpu6502 :=
  let (low, c) := c.pop
  let (high, c) := c.pop
  (high * 256 + low, c)

/-- `PLP()`: `Status = (pulled & ~Flags.Break) | Flags.Unused`. -/
def PLP (c : Cpu6502) : Cpu6502 :=
  let (p, c) := c.pop
  { c with Status := (p &&& (Flags.Break ^^^ 0xFFFFFFFF)) ||| Flags.Unused }

/-- `JSR(addr)`: `pushWord(PC - 1); PC = addr`.  (`PC` here has already
been advanced past the three instruction bytes, so `PC - 1` is the
address of the instruction's third byte; `PC ≥ 3` whenever this is
reached, so natural subtraction agrees with JavaScript.) -/
def JSR (c : Cpu6502) (addr : Nat) : Cpu6502 :=
  let returnAddr := c.PC - 1
  { c.pushWord returnAddr with PC := addr }

/-- `RTS()`: `PC = popWord() + 1`. -/
def RTS (c : Cpu6502) : Cpu6502 :=
  let (returnAddr, c) := c.popWord
  { c with PC := returnAddr + 1 }

/-- `addrImmediate(): return this.PC++` — effective address is the
current PC; PC advances (unmasked, as in the source). -/
def addrImmediate (c : Cpu6502) : Nat × Cpu6502 :=
  (c.PC, { c with PC := c.PC + 1 })

/-- `addrAbsolute()`: fetch low then high operand byte;
`(high << 8) | low`. -/
def addrAbsolute (c : Cpu6502) : Nat × Cpu6502 :=
  let low := c.mem.read c.PC
  let high := c.mem.read (c.PC + 1)
  (high * 256 + low, { c with PC := c.PC + 2 })

/-- `addrAbsoluteX()`: `(((high << 8) | low) + X) & 0xFFFF`. -/
def addrAbsoluteX (c : Cpu6502) : Nat × Cpu6502 :=
  let low := c.mem.read c.PC
  let high := c.mem.read (c.PC + 1)
  ((high * 256 + low + c.X) % 65536, { c with PC := c.PC + 2 })

/-- `addrIndirect()` (cpu_6502.ts lines 110-117), with the 6502
page-wrap quirk: the pointer's high byte is fetched from
`(ptr & 0xFF00) | ((ptr + 1) & 0xFF)` (rendered arithmetically; `ptr`
is a 16-bit value built from two bytes). -/
def addrIndirect (c : Cpu6502) : Nat × Cpu6502 :=
  let low := c.mem.read c.PC
  let high := c.mem.read (c.PC + 1)
  let c := { c with PC := c.PC + 2 }
  let ptr := high * 256 + low
  let lowAddr := c.mem.read ptr
  let highAddr := c.mem.read (ptr / 256 * 256 + (ptr + 1) % 256)
  (highAddr * 256 + lowAddr, c)

end Cpu6502

/-- Addressing modes used by the opcode subset modelled below
(opcode-table metadata). -/
inductive AddrMode where
  | imp
  | imm
  | abs
  | ind
  | iax
deriving DecidableEq, Repr

/-- One opcode-table entry: mnemonic tag is implicit in the dispatch;
we keep the addressing mode, base cycles and the variant gate. -/
structure OpcodeEntry where
  mode : AddrMode
  cycles : Nat
  only65C02 : Bool
deriving Repr

/-- Modelled from the spec: the static opcode metadata table
(opcodes.ts, imported by cpu_6502.ts, is not under src/).  Per §4.B the
table maps each opcode byte to mnemonic, addressing mode, base cycles
and variant tag, with unfilled entries denoting undefined opcodes.
Only the opcodes exercised by the theorems below are listed; no theorem
in this file depends on a base-cycle value. -/
def OPCODES : Nat → Option OpcodeEntry
  | 0xEA => some ⟨AddrMode.imp, 2, false⟩   -- NOP
  | 0xA9 => some ⟨AddrMode.imm, 2, false⟩   -- LDA #imm
  | 0x69 => some ⟨AddrMode.imm, 2, false⟩   -- ADC #imm
  | 0x4C => some ⟨AddrMode.abs, 3, false⟩   -- JMP abs
  | 0x6C => some ⟨AddrMode.ind, 5, false⟩   -- JMP (ind)
  | 0x7C => some ⟨AddrMode.iax, 6, true⟩    -- JMP (abs,X), 65C02 only
  | 0x20 => some ⟨AddrMode.abs, 6, false⟩   -- JSR abs
  | 0x60 => some ⟨AddrMode.imp, 6, false⟩   -- RTS
  | _ => none

namespace Cpu6502

/-- `fetchEffectiveAddress(mode)` for the modes of the modelled
subset (`imp` yields 0, as in the source). -/
def fetchEffectiveAddress (c : Cpu6502) (mode : AddrMode) : Nat × Cpu6502 :=
  match mode with
  | AddrMode.imm => c.addrImmediate
  | AddrMode.abs => c.addrAbsolute
  | AddrMode.ind => c.addrIndirect
  | AddrMode.iax => (0, c)  -- JMP (abs,X) is inlined in the dispatch
  | AddrMode.imp => (0, c)

/-- `executeOpcode(opcode)` (cpu_6502.ts lines 161-502) restricted to
the opcode subset of `OPCODES`; `none` models the thrown decode error
for unknown opcodes and for 65C02-only opcodes under the 6502 variant.
Each case is a direct translation of the corresponding `switch` case. -/
def executeOpcode (c : Cpu6502) (opcode : Nat) : Option Cpu6502 :=
  match OPCODES opcode with
  | none => none
  | some entry =>
    if entry.only65C02 ∧ c.cpuType ≠ CpuType.wdc65C02 then none
    else
      let c := { c with cycles := c.cycles + entry.cycles }
      match opcode with
      | 0xEA => some c
      | 0xA9 =>
        let (ea, c) := c.fetchEffectiveAddress entry.mode
        some (c.LDA (c.mem.read ea))
      | 0x69 =>
        let (ea, c) := c.fetchEffectiveAddress entry.mode
        some (c.ADC (c.mem.read ea))
      | 0x4C =>
        let (ea, c) := c.fetchEffectiveAddress entry.mode
        some { c with PC := ea }
      | 0x6C =>
        let (ea, c) := c.fetchEffectiveAddress entry.mode
        some { c with PC := ea }
      | 0x7C =>
        let (ptr, c) := c.addrAbsoluteX
        let low := c.mem.read ptr
        let high := c.mem.read ((ptr + 1) % 65536)
        some { c with PC := high * 256 + low }
      | 0x20 =>
        let (ea, c) := c.fetchEffectiveAddress entry.mode
        some (c.JSR ea)
      | 0x60 => some c.RTS
      | _ => none

/-- `step()` (cpu_6502.ts lines 51-69) for a bare CPU: no breakpoint is
set and no trap hook is attached, so the opcode at PC is fetched
(advancing PC unmasked, `this.PC++`) and executed; the return value is
the cycle delta.  `none` models the decode-error throw. -/
def step (c : Cpu6502) : Option (Cpu6502 × Nat) :=
  let opcode := c.mem.read c.PC
  let c := { c with PC := c.PC + 1 }
  let startCycles := c.cycles
  match c.executeOpcode opcode with
  | none => none
  | some c => some (c, c.cycles - startCycles)

/-- Partial register set for `setRegisters` (`Partial<CpuRegisters>`). -/
structure PartialRegs where
  A : Option Nat := none
  X : Option Nat := none
  Y : Option Nat := none
  PC : Option Nat := none
  SP : Option Nat := none
  Status : Option Nat := none

/-- `setFlags(flags) { this.Status = flags; }` — direct assignment. -/
def setFlags (c : Cpu6502) (flags : Nat) : Cpu6502 :=
  { c with Status := flags }

/-- `setRegisters(regs)` (cpu_6502.ts lines 649-657): each defined
field is assigned to the register directly, with no masking; `Status`
goes through `setFlags`, which also assigns directly. -/
def setRegisters (c : Cpu6502) (regs : PartialRegs) : Cpu6502 :=
  let c := match regs.A with | some v => { c with A := v } | none => c
  let c := match regs.X with | some v => { c with X := v } | none => c
  let c := match regs.Y with | some v => { c with Y := v } | none => c
  let c := match regs.PC with | some v => { c with PC := v } | none => c
  let c := match regs.SP with | some v => { c with SP := v } | none => c
  match regs.Status with | some v => c.setFlags v | none => c

end Cpu6502

/-! ## Debug-info model (debugInfo.ts) -/

/-- A span with its absolute range already computed by `finalize`
(`absStart = seg.start + span.start`); this is the payload stored in
the interval tree. -/
structure SpanInfo where
  id : Nat
  absStart : Nat
  size : Nat
deriving DecidableEq, Repr

/-- A source-line record (`LineInfo`): file id, line number and the
optional `type` (`1` marks a C/high-level line). -/
structure LineInfo where
  fileId : Nat
  line : Nat
  type : Option Nat
deriving DecidableEq, Repr

/-- The finalized lookup state of `DebugInfo` that the line queries
use: the spans inserted into the interval tree (in insertion order) and
the `spanToLines` map. -/
structure DebugInfo where
  spans : List SpanInfo
  spanToLines : Nat → List LineInfo

namespace DebugInfo

/-- `finalize` inserts each span over the inclusive key range
`[absStart, absStart + size - 1]`; `spanTree.search(addr, addr)`
returns the spans whose range contains `addr`.  (Natural subtraction:
for `size = 0` the source range `[absStart, absStart - 1]` is empty
only when `absStart > 0`; no claim involves zero-sized spans.) -/
def containsAddr (s : SpanInfo) (addr : Nat) : Bool :=
  s.absStart ≤ addr ∧ addr ≤ s.absStart + s.size - 1

/-- Stable insertion used to model the JavaScript stable
`Array.prototype.sort` with comparator `(a, b) => a.size - b.size`. -/
def orderedInsert (a : SpanInfo) : List SpanInfo → List SpanInfo
  | [] => [a]
  | b :: l => if a.size ≤ b.size then a :: b :: l else b :: orderedInsert a l

/-- Stable sort of the candidate spans by size ascending. -/
def sortBySize : List SpanInfo → List SpanInfo
  | [] => []
  | a :: l => orderedInsert a (sortBySize l)

/-- `getAllLinesForAddress(addr)` (debugInfo.ts lines 150-165): collect
the spans containing `addr`, sort them by size ascending (most specific
first) and concatenate their attached lines. -/
def getAllLinesForAddress (info : DebugInfo) (addr : Nat) : List LineInfo :=
  let candidateSpans := sortBySize (info.spans.filter (fun s => containsAddr s addr))
  candidateSpans.flatMap (fun s => info.spanToLines s.id)

/-- `getLineForAddress(addr)` (debugInfo.ts lines 141-148): prefer the
first `type == 1` line of the whole candidate list, else its first
element. -/
def getLineForAddress (info : DebugInfo) (addr : Nat) : Option LineInfo :=
  let lines := info.getAllLinesForAddress addr
  match lines.find? (fun l => l.type == some 1) with
  | some best => some best
  | none => lines.head?

end DebugInfo

/-! ## Synthetic call-stack reconstruction (bug65Debug.ts `scanStack`) -/

/-- The loop of `scanStack` (bug65Debug.ts lines 591-636), returning
the frame addresses in emission order.  `addStackFrame` always appends
a frame and returns `true`, so only the addresses matter here.  The
source loop `while (stackPtr < 0xFE && frames.length < maxFrames)`
increments `stackPtr` each iteration; `fuel` (instantiated with `0xFE`,
an upper bound on the remaining iterations for any start) makes the
recursion structural without changing the result. -/
def scanLoop (mem : Mem) (maxFrames : Nat) :
    Nat → Nat → List Nat → List Nat
  | 0, _, frames => frames
  | fuel + 1, stackPtr, frames =>
    if stackPtr < 0xFE ∧ frames.length < maxFrames then
      let low := mem.read (0x100 + stackPtr)
      let high := mem.read (0x100 + stackPtr + 1)
      let retAddrOnStack := high * 256 + low
      -- jsrAddr = retAddrOnStack - 2; the guard `jsrAddr >= 0` is
      -- `2 ≤ retAddrOnStack` (and `jsrAddr <= 0xFFFF` always holds).
      let frames :=
        if 2 ≤ retAddrOnStack ∧ mem.read (retAddrOnStack - 2) = 0x20 then
          frames ++ [retAddrOnStack - 2]
        else frames
      scanLoop mem maxFrames fuel (stackPtr + 1) frames
    else frames

/-- `scanStack(maxFrames)`: frame 0 is the current PC; then page 1 is
scanned from `SP + 1` upward by `scanLoop`. -/
def scanStack (mem : Mem) (pc sp maxFrames : Nat) : List Nat :=
  scanLoop mem maxFrames 0xFE (sp + 1) [pc]

/-! ## Paravirtualization host (bug65_host.ts `Bug65Host`) -/

/-- State owned by `Bug65Host` together with the CPU it drives: the
`sp-zp` zero-page address of the software-stack pointer, the console
input buffer shared by fds 0/1/2 (`ConsoleStrategy.inputBuffer`), the
waiting-for-input flag, and the command-line arguments (as byte
strings, `charCodeAt` applied).  The fd table holds the initial
console-only entries 0/1/2; host files opened later are outside the
claims checked here. -/
structure HostState where
  cpu : Cpu6502
  spAddress : Nat
  inputBuffer : List Nat
  waitingForInput : Bool
  commandLineArgs : List (List Nat)

namespace HostState

/-- `getAX(): (regs.X << 8) | regs.A`. -/
def getAX (h : HostState) : Nat := h.cpu.X * 256 + h.cpu.A

/-- `setAX(val)`: `A = val & 0xFF; X = (val >> 8) & 0xFF` via
`setRegisters` (which assigns directly). -/
def setAX (h : HostState) (val : Nat) : HostState :=
  { h with cpu := { h.cpu with A := val % 256, X := val / 256 % 256 } }

/-- The 16-bit software-stack pointer read from the two zero-page bytes
at `sp-zp` (little-endian): `(mem[spZp+1] << 8) | mem[spZp]`. -/
def softSp (h : HostState) : Nat :=
  h.cpu.mem.read (h.spAddress + 1) * 256 + h.cpu.mem.read h.spAddress

/-- Store a 16-bit value into the two `sp-zp` bytes (low then high),
as `popParam`/`pushBuffer` do. -/
def writeSoftSp (h : HostState) (sp : Nat) : HostState :=
  let m := h.cpu.mem.write h.spAddress (sp % 256)
  let m := m.write (h.spAddress + 1) (sp / 256 % 256)
  { h with cpu := { h.cpu with mem := m } }

/-- Little-endian read of `bytes` bytes starting at `sp`:
`val |= mem[sp + i] << (i * 8)` for `i = 0 .. bytes-1`. -/
def readLE (m : Mem) (sp : Nat) : Nat → Nat
  | 0 => 0
  | bytes + 1 => m.read sp + 256 * readLE m (sp + 1) bytes

/-- `popParam(bytes)` (bug65_host.ts lines 192-208): read the value at
the soft SP, then advance the soft SP by `bytes` (masked to 16 bits). -/
def popParam (h : HostState) (bytes : Nat) : Nat × HostState :=
  let sp := h.softSp
  let val := readLE h.cpu.mem sp bytes
  let newSp := (sp + bytes) % 65536
  (val, h.writeSoftSp newSp)

/-- `peekParam(bytes, offsetBytes)` (bug65_host.ts lines 210-228): read
without popping, at `(softSp + offsetBytes) & 0xFFFF`. -/
def peekParam (h : HostState) (bytes offsetBytes : Nat) : Nat :=
  readLE h.cpu.mem ((h.softSp + offsetBytes) % 65536) bytes

/-- Sequential byte store `mem[addr + i] = data[i]` used by
`pushBuffer` and by the `read` handler's copy-back loop. -/
def writeBytes (m : Mem) (addr : Nat) : List Nat → Mem
  | [] => m
  | b :: rest => writeBytes (m.write addr b) (addr + 1) rest

/-- `pushBuffer(data)` (bug65_host.ts lines 176-189): descending soft
stack; `sp = (sp - data.length) & 0xFFFF` (two's-complement wrap,
rendered as `+ 65536 - len` for the byte-string lengths that occur),
write the data there, store the new soft SP, return it. -/
def pushBuffer (h : HostState) (data : List Nat) : Nat × HostState :=
  let sp := (h.softSp + 65536 - data.length % 65536) % 65536
  let m := writeBytes h.cpu.mem sp data
  let h := { h with cpu := { h.cpu with mem := m } }
  (sp, h.writeSoftSp sp)

/-- `ConsoleStrategy.read(count)`: deliver `min(count, buffered)` bytes
in FIFO order and drop them from the buffer. -/
def consoleRead (buffer : List Nat) (count : Nat) : List Nat × List Nat :=
  let len := min count buffer.length
  (buffer.take len, buffer.drop len)

/-- Whether a descriptor is in the initial fd table (console strategies
on 0/1/2). -/
def isConsoleFd (fd : Nat) : Bool := fd = 0 ∨ fd = 1 ∨ fd = 2

/-- `pvRead()` (bug65_host.ts lines 322-412).  Returns the new state
and the boolean handed back through `handleTrap` (`true` = halt the
step, blocking on console input).  The first `fd === 0` block of the
source only calls `strat.read(0)`, which never changes the buffer, so
it is effect-free and omitted.  The `count` is in AX; `bufAddr` and
`fd` are peeked at soft-SP offsets 0 and 2 and popped only on the
non-blocking paths (the popped values themselves are discarded by the
source). -/
def pvRead (h : HostState) : HostState × Bool :=
  let count := h.getAX
  let bufAddr := h.peekParam 2 0
  let fd := h.peekParam 2 2
  if isConsoleFd fd then
    if fd = 0 ∧ count > 0 ∧ h.inputBuffer.length = 0 then
      -- block: set waiting-for-input, pop nothing, halt the step
      ({ h with waitingForInput := true }, true)
    else
      let (_, h) := h.popParam 2  -- bufAddr
      let (_, h) := h.popParam 2  -- fd
      let (data, rest) := consoleRead h.inputBuffer count
      let h := { h with
        cpu := { h.cpu with mem := writeBytes h.cpu.mem bufAddr data },
        inputBuffer := rest }
      let h := h.setAX data.length
      ({ h with waitingForInput := false }, false)
  else
    -- bad fd: pop both params, return $FFFF
    let (_, h) := h.popParam 2
    let (_, h) := h.popParam 2
    let h := h.setAX 0xFFFF
    ({ h with waitingForInput := false }, false)

/-- `pvWrite()` (bug65_host.ts lines 414-430): `count` in AX; pop
`bufAddr` then `fd`; a console strategy's `write` returns the data
length (the bytes go to the host console, outside the guest-visible
state), a missing fd yields $FFFF. -/
def pvWrite (h : HostState) : HostState :=
  let count := h.getAX
  let (_bufAddr, h) := h.popParam 2
  let (fd, h) := h.popParam 2
  if isConsoleFd fd then h.setAX count
  else h.setAX 0xFFFF

/-- `pvLseek()` (bug65_host.ts lines 432-444): `whence` in AX; pop a
32-bit `offset` then `fd`.  Both the console and the host-file strategy
return `-1` from `lseek`, and `setAX(-1)` stores $FFFF. -/
def pvLseek (h : HostState) : HostState :=
  let (_offset, h) := h.popParam 4
  let (_fd, h) := h.popParam 2
  h.setAX 0xFFFF

/-- NUL-terminated string read used by `pvOpen` (`while (true) { char =
mem.read(ptr++); if (char === 0) break; ... }`); the fuel bounds the
scan at the 64 KiB address space. -/
def readCString (m : Mem) : Nat → Nat → List Nat
  | _, 0 => []
  | ptr, fuel + 1 =>
    let ch := m.read ptr
    if ch = 0 then [] else ch :: readCString m (ptr + 1) fuel

/-- `pvOpen()` (bug65_host.ts lines 262-308): pop `mode` (unused by the
source), `flags`, then `nameAddr`; read the NUL-terminated path.  The
`fs.openSync` call and the fd-table insertion touch the host
filesystem, not guest state; `fsResult` stands for the value the
try/catch stores into AX (the new host fd, or $FFFF on error). -/
def pvOpen (h : HostState) (fsResult : Nat) : HostState :=
  let (_mode, h) := h.popParam 2
  let (_flags, h) := h.popParam 2
  let (nameAddr, h) := h.popParam 2
  let _path := readCString h.cpu.mem nameAddr 65536
  h.setAX fsResult

/-- `pvArgs()` (bug65_host.ts lines 469-505), step 1: push each
argument string NUL-terminated, collecting the addresses in argument
order. -/
def pushArgStrings (h : HostState) : List (List Nat) → List Nat × HostState
  | [] => ([], h)
  | arg :: rest =>
    let (addr, h) := h.pushBuffer (arg ++ [0])
    let (addrs, h) := pushArgStrings h rest
    (addr :: addrs, h)

/-- `pvArgs()` steps 2-3: push the NULL terminator, then the string
addresses in reverse order (`for (let i = argc - 1; i >= 0; i--)`,
rendered as a fold over the reversed list). -/
def pushArgPointers (h : HostState) (addrs : List Nat) : HostState :=
  let h := (h.pushBuffer [0, 0]).2
  addrs.reverse.foldl
    (fun h addr => (h.pushBuffer [addr % 256, addr / 256 % 256]).2) h

/-- `pvArgs()` (bug65_host.ts lines 469-505): marshal the command-line
arguments onto the soft stack, store the resulting argv address at the
guest address passed in AX, and return `argc` in AX. -/
def pvArgs (h : HostState) : HostState :=
  let argvPtrAddr := h.getAX
  let args := h.commandLineArgs
  let argc := args.length
  let (stringAddrs, h) := pushArgStrings h args
  let h := pushArgPointers h stringAddrs
  let argvAddr := h.softSp
  let m := h.cpu.mem.write argvPtrAddr (argvAddr % 256)
  let m := m.write (argvPtrAddr + 1) (argvAddr / 256 % 256)
  let h := { h with cpu := { h.cpu with mem := m } }
  h.setAX argc

/-- `handleTrap(pc)` (bug65_host.ts lines 230-260).  Returns the new
state and the hook's boolean (`true` halts the step).  $FFF9 (exit)
returns `true`; $FFF6 (read) forwards `pvRead`'s boolean; the other
handled hooks run and return `false`; unhandled addresses are a no-op
returning `false`.  `fsResult` models the host-filesystem outcome of an
`open` (see `pvOpen`); `remove`/`maperrno`/`close` only touch AX or the
host filesystem and are not needed by the claims, so they fall into the
default, which leaves guest state unchanged like the source's
unhandled-address path. -/
def handleTrap (h : HostState) (pc : Nat) (fsResult : Nat) :
    HostState × Bool :=
  if pc = 0xFFF9 then (h, true)
  else if pc = 0xFFF4 then (h.pvOpen fsResult, false)
  else if pc = 0xFFF6 then h.pvRead
  else if pc = 0xFFF7 then (h.pvWrite, false)
  else if pc = 0xFFF1 then (h.pvLseek, false)
  else if pc = 0xFFF8 then (h.pvArgs, false)
  else (h, false)

/-- `Cpu6502.step` with the host's trap hook attached (`cpu.onTrap =
(pc) => this.handleTrap(pc)`, bug65_host.ts line 134) and no
breakpoints: if the hook returns `true` the step aborts with 0 cycles
and PC unchanged; otherwise the fetch/execute pipeline of
`Cpu6502.step` runs on the post-trap state. -/
def step (h : HostState) (fsResult : Nat) : Option (HostState × Nat) :=
  let (h, halt) := h.handleTrap h.cpu.PC fsResult
  if halt then some (h, 0)
  else
    match h.cpu.step with
    | none => none
    | some (c, cy) => some ({ h with cpu := c }, cy)

end HostState

/-! ## Concrete scenario states -/

/-- Fresh memory: a `Uint8Array` is zero-initialized. -/
def zeroMem : Mem := fun _ => 0

/-- Memory of the synthetic-stack scenario: SP=$FB with $01FC=$05,
$01FD=$02, $01FE=$56, $01FF=$3D, and JSR opcode $20 at $0203 and
$3D54. -/
def stackScanMem : Mem :=
  (((((zeroMem.write 0x1FC 0x05).write 0x1FD 0x02).write
      0x1FE 0x56).write 0x1FF 0x3D).write 0x203 0x20).write 0x3D54 0x20

/-- Memory of the `JMP ($10FF)` scenario: `6C FF 10` at $0400,
$10FF=$80, $1000=$20, and a marker byte $11 at $1100 (so that the
non-wrapping fetch the claim describes for the 65C02 would give a
visibly different target, $1180). -/
def jmpIndMem : Mem :=
  (((((zeroMem.write 0x0400 0x6C).write 0x0401 0xFF).write
      0x0402 0x10).write 0x10FF 0x80).write 0x1000 0x20).write 0x1100 0x11

/-- CPU at the `JMP ($10FF)` instruction, 6502 variant. -/
def jmpIndCpuA : Cpu6502 :=
  ⟨0, 0, 0, 0xFF, 0x0400, 0x24, 0, jmpIndMem, CpuType.mos6502⟩

/-- CPU at the `JMP ($10FF)` instruction, 65C02 variant. -/
def jmpIndCpuB : Cpu6502 :=
  ⟨0, 0, 0, 0xFF, 0x0400, 0x24, 0, jmpIndMem, CpuType.wdc65C02⟩

/-- ASCII byte strings of the scenario arguments
`["test_prog","arg1","arg2"]`. -/
def argsBytes : List (List Nat) :=
  [[116, 101, 115, 116, 95, 112, 114, 111, 103],
   [97, 114, 103, 49], [97, 114, 103, 50]]

/-- Host state entering the $FFF8 args trap: sp-zp=$02, soft-SP $C000
(bytes $00 $C0 at $0002/$0003), AX=$2000 (A=$00, X=$20). -/
def argsHost : HostState :=
  ⟨⟨0x00, 0x20, 0, 0xFF, 0xFFF8, 0x24, 0,
    (zeroMem.write 2 0x00).write 3 0xC0, CpuType.mos6502⟩,
   2, [], false, argsBytes⟩

/-- Debug info with two overlapping spans: span 1 covers
[$1000,$1063] (size 100) and carries a C line (type 1, line 10); span 2
covers [$1032,$103B] (size 10) and carries an assembly line (type 2,
line 20). -/
def overlapInfo : DebugInfo :=
  ⟨[⟨1, 0x1000, 100⟩, ⟨2, 0x1032, 10⟩],
   fun id =>
     if id = 1 then [⟨1, 10, some 1⟩]
     else if id = 2 then [⟨1, 20, some 2⟩] else []⟩

/-- A CPU state with in-range registers, used to exhibit the behavior
of `setRegisters`. -/
def regsCpu : Cpu6502 :=
  ⟨1, 2, 3, 0xFF, 0x0200, 0x24, 0, zeroMem, CpuType.mos6502⟩

/-- Memory of the JSR/RTS wrap scenario: `JSR $8000` encoded at $FFFE
(opcode $20 at $FFFE, operand low $00 at $FFFF, operand high $80 read
at $10000 & $FFFF = $0000), RTS ($60) at $8000. -/
def jsrWrapMem : Mem :=
  (((zeroMem.write 0xFFFE 0x20).write 0xFFFF 0x00).write
    0x0000 0x80).write 0x8000 0x60

/-- CPU about to execute `JSR $8000` at PC=$FFFE with SP=$FF. -/
def jsrWrapCpu : Cpu6502 :=
  ⟨0, 0, 0, 0xFF, 0xFFFE, 0x24, 0, jsrWrapMem, CpuType.mos6502⟩

/-- Host state entering the $FFF4 open trap with AX=$AAAA and the three
2-byte parameters on the soft stack at $C000: mode=$01B6 (shallowest),
flags=$0001, name=$3000. -/
def openHost : HostState :=
  ⟨⟨0xAA, 0xAA, 0, 0xFF, 0xFFF4, 0x24, 0,
    ((((((zeroMem.write 2 0x00).write 3 0xC0).write 0xC000 0xB6).write
        0xC001 0x01).write 0xC002 0x01).write 0xC004 0x00).write
      0xC005 0x30,
    CpuType.mos6502⟩,
   2, [], false, []⟩

/-- Host state entering the $FFF6 read trap with fd 0, buffer address
$3000 and count 5 in AX, three bytes buffered: soft stack at $C000
holds bufAddr=$3000 (shallowest) and fd=0. -/
def readHost : HostState :=
  ⟨⟨5, 0, 0, 0xFF, 0xFFF6, 0x24, 0,
    (((zeroMem.write 2 0x00).write 3 0xC0).write 0xC000 0x00).write
      0xC001 0x30,
    CpuType.mos6502⟩,
   2, [72, 73, 74], false, []⟩

/-- Host state entering the $FFF6 read trap with fd 0, count 5 in AX
and an empty console buffer (blocking scenario). -/
def blockedHost : HostState :=
  ⟨⟨5, 0, 0, 0xFF, 0xFFF6, 0x24, 0,
    (zeroMem.write 2 0x00).write 3 0xC0, CpuType.mos6502⟩,
   2, [], false, []⟩

/-! ## Basic memory lemmas -/

namespace Mem

theorem read_write_self (m : Mem) (a v : Nat) :
    (m.write a v).read a = v % 256 := by
  simp [read, write]

theorem read_write_of_ne (m : Mem) (a b v : Nat)
    (h : b % 65536 ≠ a % 65536) : (m.write a v).read b = m.read b := by
  simp [read, write, h]

theorem read_lt (m : Mem) (a : Nat) : m.read a < 256 :=
  Nat.mod_lt _ (by omega)

end Mem

/-! ## C1: synthetic call-stack reconstruction -/

/-- C1 (code_bug evidence): in the spec's synthetic-stack scenario
(SP=$FB, $01FC=$05, $01FD=$02, $01FE=$56, $01FF=$3D, JSR opcode at
$0203 and $3D54) the scan emits only the current-PC frame and the
frame at $0203.  The loop guard `stackPtr < 0xFE` stops before the
byte pair ($01FE,$01FF), so the frame at $3D54 the claim (and the
code's own scan-up-to-$FE comment) expects is never produced. -/
theorem C1_scanStack_scenario :
    scanStack stackScanMem 0x1234 0xFB 20 = [0x1234, 0x0203] := by
  decide

/-! ## C3: JMP (ind) page-wrap behavior -/

/-- C3 counterexample: with $10FF=$80, $1000=$20 and $1100=$11, the
claim says the 65C02 variant resolves `JMP ($10FF)` to
`(mem($1100) << 8) | $80` = $1180; the code executes the same
page-wrapped fetch on both variants and lands at $2080 instead. -/
theorem C3_jmp_indirect_65C02_counterexample :
    (jmpIndCpuB.step).map (fun p => p.1.PC) = some 0x2080 ∧
    jmpIndMem.read 0x1100 * 256 + 0x80 = 0x1180 ∧ (0x2080 : Nat) ≠ 0x1180 := by
  refine ⟨by decide, by decide, by decide⟩

/-- C3 amended: with $10FF=$80 and $1000=$20, `JMP ($10FF)` sets
PC = $2080 under the 6502 variant, and the 65C02 variant executes the
identical page-wrapped pointer fetch, so it also sets PC = $2080 (the
high pointer byte always comes from (ptr & $FF00) | ((ptr+1) & $FF)). -/
theorem C3_jmp_indirect_both_variants :
    (jmpIndCpuA.step).map (fun p => p.1.PC) = some 0x2080 ∧
    (jmpIndCpuB.step).map (fun p => p.1.PC) = some 0x2080 := by
  refine ⟨by decide, by decide⟩

/-! ## C7: args trap marshalling -/

/-- C7: the $FFF8 args trap, entered with sp-zp=$02, soft-SP $C000,
arguments ["test_prog","arg1","arg2"] and AX=$2000, pushes each string
NUL-terminated, then a NULL pointer, then the string addresses in
reverse order; afterwards the word at $2000 is the final soft-SP
($BFE4, where argv[0] lives), the four consecutive little-endian words
there are $BFF6, $BFF1, $BFEC, $0000, the first three resolve to the
NUL-terminated argument strings, and AX returns argc = 3. -/
theorem C7_args_marshalling :
    (argsHost.pvArgs).cpu.mem.readWord 0x2000 = 0xBFE4 ∧
    (argsHost.pvArgs).cpu.mem.readWord 0x2000 = (argsHost.pvArgs).softSp ∧
    (argsHost.pvArgs).cpu.mem.readWord 0xBFE4 = 0xBFF6 ∧
    (argsHost.pvArgs).cpu.mem.readWord 0xBFE6 = 0xBFF1 ∧
    (argsHost.pvArgs).cpu.mem.readWord 0xBFE8 = 0xBFEC ∧
    (argsHost.pvArgs).cpu.mem.readWord 0xBFEA = 0x0000 ∧
    (List.range 10).map (fun i => (argsHost.pvArgs).cpu.mem.read (0xBFF6 + i)) =
      [116, 101, 115, 116, 95, 112, 114, 111, 103, 0] ∧
    (List.range 5).map (fun i => (argsHost.pvArgs).cpu.mem.read (0xBFF1 + i)) =
      [97, 114, 103, 49, 0] ∧
    (List.range 5).map (fun i => (argsHost.pvArgs).cpu.mem.read (0xBFEC + i)) =
      [97, 114, 103, 50, 0] ∧
    (argsHost.pvArgs).getAX = 3 := by
  decide

/-! ## Flag-bit helper lemmas -/

namespace Cpu6502

theorem setFlag_A (c : Cpu6502) (f : Nat) (b : Bool) :
    (c.setFlag f b).A = c.A := by
  unfold setFlag; split <;> rfl

theorem setFlag_SP (c : Cpu6502) (f : Nat) (b : Bool) :
    (c.setFlag f b).SP = c.SP := by
  unfold setFlag; split <;> rfl

theorem setFlag_PC (c : Cpu6502) (f : Nat) (b : Bool) :
    (c.setFlag f b).PC = c.PC := by
  unfold setFlag; split <;> rfl

theorem setFlag_mem (c : Cpu6502) (f : Nat) (b : Bool) :
    (c.setFlag f b).mem = c.mem := by
  unfold setFlag; split <;> rfl

theorem testBit_setFlag (c : Cpu6502) (f : Nat) (b : Bool) (i : Nat)
    (hi : i < 32) :
    ((c.setFlag f b).Status).testBit i =
      if f.testBit i then b else c.Status.testBit i := by
  have hmask : (4294967295 : Nat) = 2 ^ 32 - 1 := by norm_num
  cases b with
  | true =>
    simp only [setFlag, if_pos, Nat.testBit_or]
    cases hf : f.testBit i <;> simp [hf]
  | false =>
    simp only [setFlag, if_neg, Bool.false_eq_true, not_false_iff,
      Nat.testBit_and, Nat.testBit_xor, hmask,
      Nat.testBit_two_pow_sub_one]
    cases hf : f.testBit i <;> simp [hf, hi]

theorem getFlag_iff_testBit (c : Cpu6502) (i : Nat) :
    c.getFlag (2 ^ i) = c.Status.testBit i := by
  unfold getFlag
  have hp : 0 < 2 ^ i := pow_pos (by omega) i
  rcases hb : c.Status.testBit i
  · simp [Nat.and_two_pow, hb]
  · simp only [Nat.and_two_pow, hb, Bool.toNat_true, one_mul, ne_eq,
      decide_eq_true_eq]
    omega

end Cpu6502

/-! ## C4: register-store invariants -/

/-- C4 counterexample: `setRegisters` stores the caller's values into
the register fields with no masking, and `Status` goes through
`setFlags`, which assigns directly — so after
`setRegisters {A: 300, PC: 0x10005, Status: 0}` the A field holds 300
(not masked to 8 bits), PC holds $10005 (not masked to 16 bits) and
the U bit of P is 0, contradicting the claimed invariant for
`set_registers`. -/
theorem C4_setRegisters_counterexample :
    ((regsCpu.setRegisters
        { A := some 300, PC := some 0x10005, Status := some 0 }).A = 300 ∧
      ¬(300 < 256)) ∧
    ((regsCpu.setRegisters
        { A := some 300, PC := some 0x10005, Status := some 0 }).PC =
        0x10005 ∧ ¬(0x10005 < 65536)) ∧
    (regsCpu.setRegisters
        { A := some 300, PC := some 0x10005, Status := some 0 }).Status.testBit
        5 = false := by
  decide

/-- C4 amended: the masking invariant holds for the CPU's own
instruction machinery — `push`/`pop` mask SP to 8 bits, `ADC` masks the
accumulator, `LDA` preserves 8-bit A for byte inputs (its argument is
always a memory read), pull-from-stack (`PLP`) forces U=1 and B=0, and
`setFlag` on any flag other than U leaves the U bit unchanged — but
`setRegisters`/`setFlags` store the supplied values unmasked and PC is
not masked on every update, so the claimed invariant does not extend
to them. -/
theorem C4_amended_register_invariants :
    (∀ (c : Cpu6502) (v : Nat), (c.push v).SP < 256) ∧
    (∀ c : Cpu6502, (c.pop).2.SP < 256) ∧
    (∀ (c : Cpu6502) (v : Nat), (c.ADC v).A < 256) ∧
    (∀ (c : Cpu6502) (v : Nat), v < 256 → (c.LDA v).A < 256) ∧
    (∀ c : Cpu6502,
      (c.PLP).Status.testBit 5 = true ∧ (c.PLP).Status.testBit 4 = false) ∧
    (∀ (c : Cpu6502) (b : Bool) (f : Nat),
      f ∈ [Flags.Carry, Flags.Zero, Flags.InterruptDisable, Flags.Decimal,
           Flags.Overflow, Flags.Negative] →
      ((c.setFlag f b).Status).testBit 5 = c.Status.testBit 5) := by
  refine ⟨?_, ?_, ?_, ?_, ?_, ?_⟩
  · intro c v
    simp [Cpu6502.push]
    omega
  · intro c
    simp [Cpu6502.pop]
    omega
  · intro c v
    simp [Cpu6502.ADC, Cpu6502.setFlag_A]
    omega
  · intro c v hv
    simpa [Cpu6502.LDA, Cpu6502.setFlag_A] using hv
  · intro c
    have h1 : (32 : Nat).testBit 5 = true := by decide
    have h2 : (32 : Nat).testBit 4 = false := by decide
    have h3 : (4294967279 : Nat).testBit 4 = false := by decide
    constructor <;>
      simp [Cpu6502.PLP, Cpu6502.pop, Flags.Break, Flags.Unused,
        Nat.testBit_or, Nat.testBit_and, h1, h2, h3]
  · intro c b f hf
    simp only [List.mem_cons, List.not_mem_nil, or_false] at hf
    rcases hf with rfl | rfl | rfl | rfl | rfl | rfl <;>
      rw [Cpu6502.testBit_setFlag _ _ _ _ (by omega)] <;>
      rw [if_neg (by decide)]

/-- C4 witness: the amended invariants applied at concrete inputs. -/
theorem C4_amended_register_invariants_witness :
    (regsCpu.push 0x12345).SP < 256 ∧
    (regsCpu.ADC 200).A < 256 ∧
    (regsCpu.LDA 7).A < 256 ∧
    (regsCpu.PLP).Status.testBit 5 = true ∧
    ((regsCpu.setFlag Flags.Negative true).Status).testBit 5 =
      regsCpu.Status.testBit 5 := by
  refine ⟨C4_amended_register_invariants.1 regsCpu 0x12345,
    (C4_amended_register_invariants.2.2.1) regsCpu 200,
    (C4_amended_register_invariants.2.2.2.1) regsCpu 7 (by decide),
    ((C4_amended_register_invariants.2.2.2.2.1) regsCpu).1,
    (C4_amended_register_invariants.2.2.2.2.2) regsCpu true Flags.Negative
      (by decide)⟩

/-! ## C6: blocking console read suspends without popping -/

/-- C6: entering the $FFF6 read trap with fd 0 and count > 0 while no
console input is buffered sets the waiting-for-input flag, pops no
parameters and changes neither guest memory nor any register; the trap
hook returns halt, so the CPU step returns 0 cycles and PC stays at
$FFF6 (the whole state is unchanged except the flag). -/
theorem C6_blocking_read (h : HostState) (fsResult : Nat)
    (hpc : h.cpu.PC = 0xFFF6)
    (hfd : h.peekParam 2 2 = 0)
    (hcount : 0 < h.getAX)
    (hbuf : h.inputBuffer = []) :
    h.step fsResult = some ({ h with waitingForInput := true }, 0) := by
  have h2 : h.pvRead = ({ h with waitingForInput := true }, true) := by
    simp only [HostState.pvRead, hfd, hbuf]
    norm_num [HostState.isConsoleFd, hcount]
  have h1 : h.handleTrap 0xFFF6 fsResult = h.pvRead := by
    unfold HostState.handleTrap
    rw [if_neg (by omega), if_neg (by omega), if_pos rfl]
  simp only [HostState.step, hpc, h1, h2]
  simp

/-- C6 witness: the blocking-read theorem applied to the concrete
host state `blockedHost` (PC=$FFF6, fd 0 and buffer address on the
soft stack, count 5 in AX, empty input buffer). -/
theorem C6_blocking_read_witness :
    blockedHost.step 0 = some ({ blockedHost with waitingForInput := true }, 0) :=
  C6_blocking_read blockedHost 0 rfl (by decide) (by decide) rfl

/-! ## Software-stack lemmas -/

namespace HostState

theorem read_writeBytes_of_ne (l : List Nat) :
    ∀ (m : Mem) (a x : Nat),
      (∀ i, i < l.length → (a + i) % 65536 ≠ x % 65536) →
      (writeBytes m a l).read x = m.read x := by
  induction l with
  | nil => intro m a x _; rfl
  | cons b rest ih =>
    intro m a x hne
    show (writeBytes (m.write a b) (a + 1) rest).read x = m.read x
    rw [ih _ _ _ (fun i hi => by
      have := hne (i + 1) (by simp; omega)
      omega)]
    exact Mem.read_write_of_ne _ _ _ _ (by
      have := hne 0 (by simp)
      omega)

theorem read_writeBytes_getD (l : List Nat) :
    ∀ (m : Mem) (a i : Nat), i < l.length → l.length ≤ 65536 →
      (writeBytes m a l).read (a + i) = l.getD i 0 % 256 := by
  induction l with
  | nil => intro m a i hi _; simp at hi
  | cons b rest ih =>
    intro m a i hi hlen
    cases i with
    | zero =>
      show (writeBytes (m.write a b) (a + 1) rest).read (a + 0) = _
      rw [read_writeBytes_of_ne rest _ _ _ (fun j hj => by
        simp only [List.length_cons] at hlen
        omega)]
      simpa using Mem.read_write_self m a b
    | succ i' =>
      show (writeBytes (m.write a b) (a + 1) rest).read (a + (i' + 1)) = _
      have harr : a + (i' + 1) = (a + 1) + i' := by omega
      rw [harr, ih _ _ i' (by simpa using hi)
        (by simp only [List.length_cons] at hlen; omega)]
      simp

theorem softSp_writeSoftSp (h : HostState) (v : Nat) :
    (h.writeSoftSp v).softSp = v % 65536 := by
  unfold writeSoftSp softSp
  simp only
  rw [Mem.read_write_self, Mem.read_write_of_ne _ _ _ _ (by omega),
    Mem.read_write_self]
  omega

theorem softSp_popParam (h : HostState) (n : Nat) :
    (h.popParam n).2.softSp = (h.softSp + n) % 65536 := by
  unfold popParam
  simp only
  rw [softSp_writeSoftSp]
  omega

theorem getAX_setAX (h : HostState) (v : Nat) :
    (h.setAX v).getAX = v % 65536 := by
  unfold setAX getAX
  simp only
  omega

end HostState

/-! ## C10: console read with buffered input never suspends -/

/-- C10: whenever at least one byte of console input is buffered, the
$FFF6 read trap on fd 0 (count in AX) never suspends: it pops its two
2-byte stack parameters, delivers exactly `min(count, buffered)` bytes
to the guest buffer in FIFO order, removes exactly those bytes from the
input buffer, returns that byte count in AX, and clears the
waiting-for-input flag.  The soft-SP conclusion carries the proviso
that the delivered bytes do not land on the two `sp-zp` pointer cells
themselves (otherwise the copy-back would overwrite the just-written
pointer). -/
theorem C10_console_read_with_input (h : HostState)
    (hA : h.cpu.A < 256) (hX : h.cpu.X < 256)
    (hfd : h.peekParam 2 2 = 0)
    (hcount : 0 < h.getAX)
    (hbuf : h.inputBuffer ≠ [])
    (hbytes : ∀ b ∈ h.inputBuffer, b < 256) :
    (h.pvRead).2 = false ∧
    (h.pvRead).1.waitingForInput = false ∧
    (h.pvRead).1.inputBuffer =
      h.inputBuffer.drop (min h.getAX h.inputBuffer.length) ∧
    (h.pvRead).1.getAX = min h.getAX h.inputBuffer.length ∧
    (∀ i, i < min h.getAX h.inputBuffer.length →
      (h.pvRead).1.cpu.mem.read (h.peekParam 2 0 + i) =
        h.inputBuffer.getD i 0) ∧
    ((∀ i, i < min h.getAX h.inputBuffer.length →
        (h.peekParam 2 0 + i) % 65536 ≠ h.spAddress % 65536 ∧
        (h.peekParam 2 0 + i) % 65536 ≠ (h.spAddress + 1) % 65536) →
      (h.pvRead).1.softSp = (h.softSp + 4) % 65536) := by
  have hlen : h.inputBuffer.length ≠ 0 := by
    have := List.length_pos.mpr hbuf
    omega
  simp only [HostState.pvRead, hfd, hlen, HostState.isConsoleFd,
    HostState.consoleRead]
  simp only [decide_True, decide_False, Nat.zero_ne_one, or_false, or_true,
    true_or, and_false, false_and, and_true, true_and, if_true, if_false,
    eq_self_iff_true, ite_true, ite_false, Bool.true_eq, gt_iff_lt]
  have hib : ∀ (g : HostState) (n : Nat),
      ((g.popParam n).2).inputBuffer = g.inputBuffer := fun _ _ => rfl
  have hsa : ∀ (g : HostState) (n : Nat),
      ((g.popParam n).2).spAddress = g.spAddress := fun _ _ => rfl
  simp only [hib, hsa, HostState.setAX, HostState.getAX, List.length_take]
  have hgetD_take : ∀ (l : List Nat) (n i : Nat), i < n →
      (l.take n).getD i 0 = l.getD i 0 := by
    intro l
    induction l with
    | nil => intro n i _; simp
    | cons b rest ih =>
      intro n i hin
      cases n with
      | zero => omega
      | succ n' =>
        cases i with
        | zero => simp
        | succ i' => simpa using ih n' i' (by omega)
  have hgetD_mem : ∀ (l : List Nat) (i : Nat), i < l.length →
      l.getD i 0 ∈ l := by
    intro l
    induction l with
    | nil => intro i hi; simp at hi
    | cons b rest ih =>
      intro i hi
      cases i with
      | zero => simp
      | succ i' =>
        simp only [List.getD_cons_succ, List.mem_cons]
        exact Or.inr (ih i' (by simpa using hi))
  refine ⟨trivial, by omega, ?_, ?_⟩
  · intro i hi
    rw [HostState.read_writeBytes_getD _ _ _ _ (by simp; omega) (by simp; omega)]
    rw [hgetD_take _ _ _ (by omega)]
    exact Nat.mod_eq_of_lt (hbytes _ (hgetD_mem _ _ (by omega)))
  · intro hnc
    simp only [HostState.softSp]
    rw [HostState.read_writeBytes_of_ne _ _ _ _ (fun i hi => by
      simp only [List.length_take] at hi
      exact (hnc i (by omega)).2),
      HostState.read_writeBytes_of_ne _ _ _ _ (fun i hi => by
      simp only [List.length_take] at hi
      exact (hnc i (by omega)).1)]
    show ((h.popParam 2).2.popParam 2).2.softSp = _
    rw [HostState.softSp_popParam, HostState.softSp_popParam]
    have hss : h.softSp =
        h.cpu.mem.read (h.spAddress + 1) * 256 + h.cpu.mem.read h.spAddress :=
      rfl
    omega

/-- C10 witness: the non-suspending console read applied to the
concrete host state `readHost` (fd 0, count 5 in AX, three bytes
buffered). -/
theorem C10_console_read_with_input_witness : (readHost.pvRead).2 = false :=
  (C10_console_read_with_input readHost (by decide) (by decide) (by decide)
    (by decide) (by decide) (by decide)).1

/-! ## Per-handler soft-stack lemmas -/

namespace HostState

theorem softSp_setAX (h : HostState) (v : Nat) :
    (h.setAX v).softSp = h.softSp := rfl

theorem pvLseek_softSp (h : HostState) :
    (h.pvLseek).softSp = (h.softSp + 6) % 65536 := by
  show (((h.popParam 4).2.popParam 2).2.setAX 0xFFFF).softSp = _
  rw [softSp_setAX, softSp_popParam, softSp_popParam]
  omega

theorem pvLseek_getAX (h : HostState) : (h.pvLseek).getAX = 0xFFFF := by
  show (((h.popParam 4).2.popParam 2).2.setAX 0xFFFF).getAX = _
  rw [getAX_setAX]

theorem pvOpen_softSp (h : HostState) (fsResult : Nat) :
    (h.pvOpen fsResult).softSp = (h.softSp + 6) % 65536 := by
  show ((((h.popParam 2).2.popParam 2).2.popParam 2).2.setAX fsResult).softSp = _
  rw [softSp_setAX, softSp_popParam, softSp_popParam, softSp_popParam]
  omega

theorem pvWrite_softSp (h : HostState) :
    (h.pvWrite).softSp = (h.softSp + 4) % 65536 := by
  show (if isConsoleFd (((h.popParam 2).2).popParam 2).1 = true
      then ((h.popParam 2).2.popParam 2).2.setAX h.getAX
      else ((h.popParam 2).2.popParam 2).2.setAX 0xFFFF).softSp = _
  by_cases hc : isConsoleFd (((h.popParam 2).2).popParam 2).1 = true
  · rw [if_pos hc, softSp_setAX, softSp_popParam, softSp_popParam]
    omega
  · rw [if_neg hc, softSp_setAX, softSp_popParam, softSp_popParam]
    omega

theorem pvWrite_getAX (h : HostState)
    (hc : isConsoleFd (((h.popParam 2).2).popParam 2).1 = true) :
    (h.pvWrite).getAX = h.getAX % 65536 := by
  show (if isConsoleFd (((h.popParam 2).2).popParam 2).1 = true
      then ((h.popParam 2).2.popParam 2).2.setAX h.getAX
      else ((h.popParam 2).2.popParam 2).2.setAX 0xFFFF).getAX = _
  rw [if_pos hc, getAX_setAX]

theorem pvRead_softSp (h : HostState)
    (hnb : ¬(h.peekParam 2 2 = 0 ∧ h.getAX > 0 ∧ h.inputBuffer.length = 0))
    (hnc : ∀ i, i < min h.getAX h.inputBuffer.length →
        (h.peekParam 2 0 + i) % 65536 ≠ h.spAddress % 65536 ∧
        (h.peekParam 2 0 + i) % 65536 ≠ (h.spAddress + 1) % 65536) :
    (h.pvRead).1.softSp = (h.softSp + 4) % 65536 := by
  by_cases hc : isConsoleFd (h.peekParam 2 2) = true
  · simp only [HostState.pvRead, hc, if_true, HostState.consoleRead]
    rw [if_neg hnb]
    simp only [HostState.setAX]
    have hsa : ∀ (g : HostState) (n : Nat),
        ((g.popParam n).2).spAddress = g.spAddress := fun _ _ => rfl
    have hib : ∀ (g : HostState) (n : Nat),
        ((g.popParam n).2).inputBuffer = g.inputBuffer := fun _ _ => rfl
    simp only [hsa, hib, HostState.softSp]
    rw [read_writeBytes_of_ne _ _ _ _ (fun i hi => by
      simp only [List.length_take, hib] at hi
      exact (hnc i (by omega)).2),
      read_writeBytes_of_ne _ _ _ _ (fun i hi => by
      simp only [List.length_take, hib] at hi
      exact (hnc i (by omega)).1)]
    have hpp : ((h.popParam 2).2.popParam 2).2.softSp = (h.softSp + 4) % 65536 := by
      rw [softSp_popParam, softSp_popParam]
      omega
    simp only [HostState.softSp, hsa] at hpp
    exact hpp
  · simp only [HostState.pvRead, hc, if_false]
    simp only [Bool.not_eq_true] at hc
    simp only [hc, Bool.false_eq_true, if_false]
    show (((h.popParam 2).2.popParam 2).2.setAX 0xFFFF).softSp = _
    rw [softSp_setAX, softSp_popParam, softSp_popParam]
    omega

end HostState

/-! ## C5: host-ABI calling convention -/

/-- C5 counterexample: for the $FFF4 open trap the last declared
parameter (`mode`) is NOT carried in AX — the handler pops all three
2-byte parameters from the soft stack, so the soft SP rises from $C000
to $C006, not to $C004 as the claim's convention (pop only `name` and
`flags`) would give; the shallowest stack word $01B6 (the mode) is
unrelated to AX = $AAAA, which the handler never reads as a
parameter. -/
theorem C5_open_counterexample :
    (openHost.pvOpen 7).softSp = 0xC006 ∧
    openHost.softSp = 0xC000 ∧
    (0xC006 : Nat) ≠ 0xC000 + 4 ∧
    (openHost.popParam 2).1 = 0x01B6 ∧
    openHost.getAX = 0xAAAA ∧
    (0x01B6 : Nat) ≠ 0xAAAA := by
  decide

/-- C5 amended: for `read`, `write` and `lseek` the last declared
parameter (count / count / whence) is carried in AX and the remaining
parameters are popped from the soft stack shallowest-first, so the
16-bit soft stack pointer at sp-zp increases by the size of the popped
parameters: 4 bytes for read (on any path that completes, i.e. not the
blocking console case, and with the delivered bytes not overwriting the
sp-zp cells themselves), 4 for write (whose AX result echoes the
AX-carried count for console fds), and 6 for lseek; `open`, however,
takes all three parameters on the soft stack and pops 6 bytes, reading
nothing from AX. -/
theorem C5_amended_calling_convention :
    (∀ (h : HostState) (fsResult : Nat),
      (h.pvOpen fsResult).softSp = (h.softSp + 6) % 65536) ∧
    (∀ h : HostState,
      ¬(h.peekParam 2 2 = 0 ∧ h.getAX > 0 ∧ h.inputBuffer.length = 0) →
      (∀ i, i < min h.getAX h.inputBuffer.length →
        (h.peekParam 2 0 + i) % 65536 ≠ h.spAddress % 65536 ∧
        (h.peekParam 2 0 + i) % 65536 ≠ (h.spAddress + 1) % 65536) →
      (h.pvRead).1.softSp = (h.softSp + 4) % 65536) ∧
    (∀ h : HostState, (h.pvWrite).softSp = (h.softSp + 4) % 65536) ∧
    (∀ h : HostState,
      HostState.isConsoleFd (((h.popParam 2).2).popParam 2).1 = true →
      (h.pvWrite).getAX = h.getAX % 65536) ∧
    (∀ h : HostState, (h.pvLseek).softSp = (h.softSp + 6) % 65536 ∧
      (h.pvLseek).getAX = 0xFFFF) :=
  ⟨HostState.pvOpen_softSp, HostState.pvRead_softSp, HostState.pvWrite_softSp,
   HostState.pvWrite_getAX,
   fun h => ⟨HostState.pvLseek_softSp h, HostState.pvLseek_getAX h⟩⟩

/-- C5 witness: the amended convention applied at the concrete host
state `readHost` — a completing read pops 4 bytes, and a console write
echoes the AX count. -/
theorem C5_amended_calling_convention_witness :
    (readHost.pvRead).1.softSp = (readHost.softSp + 4) % 65536 ∧
    (readHost.pvWrite).getAX = readHost.getAX % 65536 :=
  ⟨C5_amended_calling_convention.2.1 readHost (by decide) (by decide),
   C5_amended_calling_convention.2.2.2.1 readHost (by decide)⟩

/-! ## C2: best-line lookup across overlapping spans -/

namespace DebugInfo

theorem mem_orderedInsert (a b : SpanInfo) (l : List SpanInfo) :
    b ∈ orderedInsert a l ↔ b = a ∨ b ∈ l := by
  induction l with
  | nil => simp [orderedInsert]
  | cons c rest ih =>
    unfold orderedInsert
    split
    · simp
    · simp only [List.mem_cons, ih]
      tauto

theorem mem_sortBySize (a : SpanInfo) (l : List SpanInfo) :
    a ∈ sortBySize l ↔ a ∈ l := by
  induction l with
  | nil => simp [sortBySize]
  | cons c rest ih =>
    unfold sortBySize
    rw [mem_orderedInsert]
    simp [ih]

theorem mem_allLines (info : DebugInfo) (addr : Nat) (l : LineInfo)
    (hm : l ∈ info.getAllLinesForAddress addr) :
    ∃ s, s ∈ info.spans ∧ containsAddr s addr = true ∧
      l ∈ info.spanToLines s.id := by
  unfold getAllLinesForAddress at hm
  rw [List.mem_flatMap] at hm
  obtain ⟨s, hs, hl⟩ := hm
  rw [mem_sortBySize, List.mem_filter] at hs
  exact ⟨s, hs.1, hs.2, hl⟩

end DebugInfo

/-- C2 counterexample: at address $1032 both spans of `overlapInfo`
apply; the smallest containing span (span 2, size 10) carries only the
type-2 line 20, yet `getLineForAddress` returns the type-1 line 10,
which is attached to no smallest-size containing span — the type-1
preference is applied across the lines of ALL containing spans, not
only those of the smallest one. -/
theorem C2_smallest_span_counterexample :
    DebugInfo.getLineForAddress overlapInfo 0x1032 =
      some ⟨1, 10, some 1⟩ ∧
    (∀ s ∈ overlapInfo.spans, DebugInfo.containsAddr s 0x1032 = true →
      (∀ t ∈ overlapInfo.spans, DebugInfo.containsAddr t 0x1032 = true →
        s.size ≤ t.size) →
      (⟨1, 10, some 1⟩ : LineInfo) ∉ overlapInfo.spanToLines s.id) := by
  decide

/-- C2 amended: `getLineForAddress(addr)` returns a line attached to
SOME span containing `addr` (not necessarily a smallest one): the first
type-1 line of the size-ascending concatenation of all containing
spans' lines wins if one exists anywhere, and otherwise the first line
of that concatenation is returned, in which case no candidate line has
type 1. -/
theorem C2_amended_line_lookup (info : DebugInfo) (addr : Nat) (l : LineInfo)
    (hl : info.getLineForAddress addr = some l) :
    (∃ s, s ∈ info.spans ∧ DebugInfo.containsAddr s addr = true ∧
      l ∈ info.spanToLines s.id) ∧
    (l.type = some 1 ∨
      ∀ l' ∈ info.getAllLinesForAddress addr, l'.type ≠ some 1) := by
  simp only [DebugInfo.getLineForAddress] at hl
  split at hl
  · rename_i best hfind
    rw [Option.some_inj] at hl
    subst hl
    refine ⟨DebugInfo.mem_allLines info addr best
      (List.mem_of_find?_eq_some hfind), Or.inl ?_⟩
    have := List.find?_some hfind
    simpa using this
  · rename_i hfind
    refine ⟨DebugInfo.mem_allLines info addr l (List.mem_of_mem_head? (by
      rw [hl]; rfl)), Or.inr ?_⟩
    intro l' hl'
    have := List.find?_eq_none.mp hfind l' hl'
    simpa using this

/-- C2 witness: the amended lookup applied at $1010 of `overlapInfo`,
where `getLineForAddress` returns line 10. -/
theorem C2_amended_line_lookup_witness :
    (∃ s, s ∈ overlapInfo.spans ∧ DebugInfo.containsAddr s 0x1010 = true ∧
      (⟨1, 10, some 1⟩ : LineInfo) ∈ overlapInfo.spanToLines s.id) ∧
    ((⟨1, 10, some 1⟩ : LineInfo).type = some 1 ∨
      ∀ l' ∈ overlapInfo.getAllLinesForAddress 0x1010, l'.type ≠ some 1) :=
  C2_amended_line_lookup overlapInfo 0x1010 ⟨1, 10, some 1⟩ (by decide)

/-! ## C8: ADC arithmetic laws -/

namespace Cpu6502

theorem getFlag_carry (c : Cpu6502) :
    c.getFlag Flags.Carry = c.Status.testBit 0 := by
  simpa [Flags.Carry] using getFlag_iff_testBit c 0

theorem getFlag_zero (c : Cpu6502) :
    c.getFlag Flags.Zero = c.Status.testBit 1 := by
  simpa [Flags.Zero] using getFlag_iff_testBit c 1

theorem getFlag_overflow (c : Cpu6502) :
    c.getFlag Flags.Overflow = c.Status.testBit 6 := by
  simpa [Flags.Overflow] using getFlag_iff_testBit c 6

theorem getFlag_negative (c : Cpu6502) :
    c.getFlag Flags.Negative = c.Status.testBit 7 := by
  simpa [Flags.Negative] using getFlag_iff_testBit c 7

theorem ADC_A (c : Cpu6502) (m : Nat) :
    (c.ADC m).A =
      (c.A + m + (if c.getFlag Flags.Carry then 1 else 0)) % 256 := by
  simp only [ADC, setFlag_A]

theorem ADC_carry (c : Cpu6502) (m : Nat) :
    (c.ADC m).getFlag Flags.Carry =
      decide (c.A + m + (if c.getFlag Flags.Carry then 1 else 0) > 255) := by
  rw [getFlag_carry]
  simp only [ADC]
  rw [testBit_setFlag _ _ _ _ (by omega), if_neg (by decide)]
  rw [testBit_setFlag _ _ _ _ (by omega), if_neg (by decide)]
  rw [testBit_setFlag _ _ _ _ (by omega), if_neg (by decide)]
  rw [testBit_setFlag _ _ _ _ (by omega), if_pos (by decide)]

theorem ADC_zero (c : Cpu6502) (m : Nat) :
    (c.ADC m).getFlag Flags.Zero =
      decide ((c.A + m + (if c.getFlag Flags.Carry then 1 else 0)) % 256
        = 0) := by
  rw [getFlag_zero]
  simp only [ADC, setFlag_A]
  rw [testBit_setFlag _ _ _ _ (by omega), if_neg (by decide)]
  rw [testBit_setFlag _ _ _ _ (by omega), if_pos (by decide)]

theorem ADC_negative (c : Cpu6502) (m : Nat) :
    (c.ADC m).getFlag Flags.Negative =
      decide ((c.A + m + (if c.getFlag Flags.Carry then 1 else 0)) % 256
        &&& 128 ≠ 0) := by
  rw [getFlag_negative]
  simp only [ADC, setFlag_A]
  rw [testBit_setFlag _ _ _ _ (by omega), if_pos (by decide)]

theorem ADC_overflow (c : Cpu6502) (m : Nat) :
    (c.ADC m).getFlag Flags.Overflow =
      decide (((c.A ^^^ m) ^^^ 0xFFFFFFFF) &&&
        (c.A ^^^ (c.A + m + (if c.getFlag Flags.Carry then 1 else 0))) &&&
        0x80 ≠ 0) := by
  rw [getFlag_overflow]
  simp only [ADC, setFlag_A]
  rw [testBit_setFlag _ _ _ _ (by omega), if_neg (by decide)]
  rw [testBit_setFlag _ _ _ _ (by omega), if_neg (by decide)]
  rw [testBit_setFlag _ _ _ _ (by omega), if_pos (by decide)]

end Cpu6502

theorem testBit7_iff (n : Nat) : n.testBit 7 = decide (128 ≤ n % 256) := by
  rw [Nat.testBit_to_div_mod]
  have h : (2:Nat)^7 = 128 := by norm_num
  rw [h]
  exact decide_eq_decide.mpr (by omega)

theorem and128_ne (n : Nat) : (n &&& 128 ≠ 0) ↔ n.testBit 7 = true := by
  rw [show (128:Nat) = 2^7 by norm_num, Nat.and_two_pow]
  rcases htb : n.testBit 7 <;> simp [htb]

/-- C8: for all 8-bit A and m and carry-in C, `ADC(m)` computes
A' = (A + m + C) mod 256, carry-out = ⌊(A + m + C)/256⌋, overflow
V = 1 iff (A<128 ∧ m<128 ∧ A'≥128) ∨ (A≥128 ∧ m≥128 ∧ A'<128), and
Z and N are set from A'. -/
theorem C8_ADC_arithmetic (c : Cpu6502) (m : Nat)
    (hA : c.A < 256) (hm : m < 256) :
    (c.ADC m).A =
      (c.A + m + (if c.getFlag Flags.Carry then 1 else 0)) % 256 ∧
    (if (c.ADC m).getFlag Flags.Carry then 1 else 0) =
      (c.A + m + (if c.getFlag Flags.Carry then 1 else 0)) / 256 ∧
    ((c.ADC m).getFlag Flags.Overflow = true ↔
      (c.A < 128 ∧ m < 128 ∧ 128 ≤ (c.ADC m).A) ∨
      (128 ≤ c.A ∧ 128 ≤ m ∧ (c.ADC m).A < 128)) ∧
    ((c.ADC m).getFlag Flags.Zero = true ↔ (c.ADC m).A = 0) ∧
    ((c.ADC m).getFlag Flags.Negative = true ↔ 128 ≤ (c.ADC m).A) := by
  have hcin : (if c.getFlag Flags.Carry then 1 else 0) ≤ 1 := by
    split <;> omega
  refine ⟨Cpu6502.ADC_A c m, ?_, ?_, ?_, ?_⟩
  · rw [Cpu6502.ADC_carry]
    by_cases hgt :
        c.A + m + (if c.getFlag Flags.Carry then 1 else 0) > 255 <;>
      simp [hgt] <;> omega
  · rw [Cpu6502.ADC_overflow, Cpu6502.ADC_A]
    simp only [decide_eq_true_eq]
    rw [and128_ne]
    simp only [Nat.testBit_and, Nat.testBit_xor]
    have hmask : (4294967295 : Nat).testBit 7 = true := by decide
    rw [hmask, testBit7_iff c.A, testBit7_iff m, testBit7_iff]
    have hAm : c.A % 256 = c.A := Nat.mod_eq_of_lt hA
    have hmm : m % 256 = m := Nat.mod_eq_of_lt hm
    rw [hAm, hmm]
    by_cases h1 : 128 ≤ c.A <;> by_cases h2 : 128 ≤ m <;>
      by_cases h3 : 128 ≤
        (c.A + m + (if c.getFlag Flags.Carry then 1 else 0)) % 256 <;>
      simp [h1, h2, h3] <;> omega
  · rw [Cpu6502.ADC_zero, Cpu6502.ADC_A]
    simp only [decide_eq_true_eq]
  · rw [Cpu6502.ADC_negative, Cpu6502.ADC_A]
    simp only [decide_eq_true_eq]
    rw [and128_ne, testBit7_iff]
    simp only [decide_eq_true_eq]
    omega

/-- C8 witness: the ADC law applied at A=1, m=200, carry clear
(`regsCpu` has Status=$24). -/
theorem C8_ADC_arithmetic_witness :
    (regsCpu.ADC 200).A =
      (regsCpu.A + 200 + (if regsCpu.getFlag Flags.Carry then 1 else 0))
        % 256 ∧
    (if (regsCpu.ADC 200).getFlag Flags.Carry then 1 else 0) =
      (regsCpu.A + 200 + (if regsCpu.getFlag Flags.Carry then 1 else 0))
        / 256 :=
  ⟨(C8_ADC_arithmetic regsCpu 200 (by decide) (by decide)).1,
   (C8_ADC_arithmetic regsCpu 200 (by decide) (by decide)).2.1⟩

/-! ## C9: JSR/RTS round trip -/

namespace Cpu6502

theorem jsr_step (A X Y SP PC St cyc : Nat) (ct : CpuType) (m : Mem)
    (addr : Nat)
    (hop : m.read PC = 0x20)
    (hlo : m.read (PC + 1) = addr % 256)
    (hhi : m.read (PC + 2) = addr / 256) :
    (Cpu6502.mk A X Y SP PC St cyc m ct).step =
      some (Cpu6502.mk A X Y (((SP + 255) % 256 + 255) % 256) addr St
        (cyc + 6)
        ((m.write (0x100 + SP) ((PC + 2) / 256 % 256)).write
          (0x100 + (SP + 255) % 256) ((PC + 2) % 256)) ct, 6) := by
  have hOJ : OPCODES 0x20 = some ⟨AddrMode.abs, 6, false⟩ := rfl
  have h12 : PC + 1 + 1 = PC + 2 := by omega
  have h31 : PC + 1 + 2 - 1 = PC + 2 := by omega
  have hea : addr / 256 * 256 + addr % 256 = addr := by omega
  simp only [Cpu6502.step, hop, Cpu6502.executeOpcode, hOJ,
    Cpu6502.fetchEffectiveAddress, Cpu6502.addrAbsolute, hlo, h12, hhi, hea,
    Cpu6502.JSR, Cpu6502.pushWord, Cpu6502.push, h31]
  simp

theorem rts_step (A X Y SP PC St cyc : Nat) (ct : CpuType) (m2 : Mem)
    (addr : Nat)
    (hSP : SP < 256)
    (h60 : m2.read addr = 0x60)
    (hlo2 : m2.read (0x100 + (SP + 255) % 256) = (PC + 2) % 256)
    (hhi2 : m2.read (0x100 + SP) = (PC + 2) / 256 % 256) :
    (Cpu6502.mk A X Y (((SP + 255) % 256 + 255) % 256) addr St cyc m2
        ct).step =
      some (Cpu6502.mk A X Y SP ((PC + 2) % 65536 + 1) St (cyc + 6) m2 ct,
        6) := by
  have hOR : OPCODES 0x60 = some ⟨AddrMode.imp, 6, false⟩ := rfl
  have hsp1 : ((((SP + 255) % 256 + 255) % 256) + 1) % 256 =
      (SP + 255) % 256 := by omega
  have hsp2 : ((SP + 255) % 256 + 1) % 256 = SP := by omega
  have hw : (PC + 2) / 256 % 256 * 256 + (PC + 2) % 256 =
      (PC + 2) % 65536 := by omega
  simp only [Cpu6502.step, h60, Cpu6502.executeOpcode, hOR, Cpu6502.RTS,
    Cpu6502.popWord, Cpu6502.pop, hsp1, hsp2, hlo2, hhi2, hw]
  simp

end Cpu6502

/-- C9 counterexample: at starting PC = $FFFE (with SP=$FF and the JSR
target $8000 holding RTS) the JSR/RTS round trip ends at PC = $0001,
because the pushed return address is truncated to 16 bits; the claim's
"PC equal to the original PC + 3" would be $10001, so the equality
fails as stated for this starting PC. -/
theorem C9_jsr_rts_wrap_counterexample :
    (jsrWrapCpu.step.bind (fun p => p.1.step)).map
      (fun p => (p.1.PC, p.1.SP)) = some (1, 0xFF) ∧
    jsrWrapCpu.PC + 3 = 0x10001 ∧ (1 : Nat) ≠ 0x10001 := by
  decide

/-- C9 amended: for any 16-bit starting PC and 8-bit SP and any target
addr not in $FFF0-$FFF9, executing `JSR addr` (which pushes PC-1 high
byte then low byte) followed by executing `RTS` at addr yields
PC = ((original PC + 2) mod 2^16) + 1 — congruent to the original
PC + 3 mod 2^16, and exactly PC + 3 whenever PC + 2 < 2^16 — and
leaves SP unchanged.  (The hook-address exclusion is the claim's; it
matters when the sim65 host hook is installed, which halts at
$FFF0-$FFF9 instead of executing the RTS.) -/
theorem C9_amended_jsr_rts (A X Y SP PC St cyc : Nat) (ct : CpuType)
    (m : Mem) (addr : Nat)
    (hPC : PC < 65536) (hSP : SP < 256) (haddr : addr < 65536)
    (hhook : ¬(0xFFF0 ≤ addr ∧ addr ≤ 0xFFF9))
    (hop : m.read PC = 0x20)
    (hlo : m.read (PC + 1) = addr % 256)
    (hhi : m.read (PC + 2) = addr / 256) :
    ∀ c1 cy1, (Cpu6502.mk A X Y SP PC St cyc m ct).step = some (c1, cy1) →
    c1.mem.read addr = 0x60 →
    ∀ c2 cy2, c1.step = some (c2, cy2) →
    c2.PC = (PC + 2) % 65536 + 1 ∧
    c2.PC % 65536 = (PC + 3) % 65536 ∧
    (PC + 2 < 65536 → c2.PC = PC + 3) ∧
    c2.SP = SP := by
  intro c1 cy1 hstep1 h60 c2 cy2 hstep2
  rw [Cpu6502.jsr_step A X Y SP PC St cyc ct m addr hop hlo hhi] at hstep1
  rw [Option.some_inj, Prod.mk.injEq] at hstep1
  obtain ⟨hc1, -⟩ := hstep1
  subst hc1
  rw [Cpu6502.rts_step A X Y SP PC St (cyc + 6) ct _ addr hSP h60
    (by
      rw [Mem.read_write_self]
      omega)
    (by
      rw [Mem.read_write_of_ne _ _ _ _ (by omega), Mem.read_write_self]
      omega)] at hstep2
  rw [Option.some_inj, Prod.mk.injEq] at hstep2
  obtain ⟨hc2, -⟩ := hstep2
  subst hc2
  refine ⟨rfl, ?_, ?_, rfl⟩
  · show ((PC + 2) % 65536 + 1) % 65536 = (PC + 3) % 65536
    omega
  · intro hlt
    show (PC + 2) % 65536 + 1 = PC + 3
    omega

/-- C9 witness: the round trip applied at PC=$FFFE, SP=$FF,
addr=$8000 on the concrete memory `jsrWrapMem`, with the two
intermediate machine states given explicitly. -/
theorem C9_amended_jsr_rts_witness :
    ((Cpu6502.mk 0 0 0 0xFD 1 0x24 12
        ((jsrWrapMem.write 0x1FF 0).write 0x1FE 0)
        CpuType.mos6502).PC % 65536 = (0xFFFE + 3) % 65536) ∧
    (0xFF : Nat) = 0xFF :=
  ⟨(C9_amended_jsr_rts 0 0 0 0xFF 0xFFFE 0x24 0 CpuType.mos6502 jsrWrapMem
      0x8000 (by decide) (by decide) (by decide) (by decide) (by decide)
      (by decide) (by decide)
      (Cpu6502.mk 0 0 0 0xFD 0x8000 0x24 6
        ((jsrWrapMem.write 0x1FF 0).write 0x1FE 0) CpuType.mos6502) 6 rfl
      (by decide)
      (Cpu6502.mk 0 0 0 0xFF 1 0x24 12
        ((jsrWrapMem.write 0x1FF 0).write 0x1FE 0) CpuType.mos6502) 6
      rfl).2.1, rfl⟩
